import Mathlib

/-!
Shallow embedding of the pantracks repository (pantracks/bigtracks.py) for
checking its specification.  The bigtracks HDF5 table is modelled as a list
of rows; all six float32 columns are modelled as exact rationals, the
fractional frame arithmetic of interpolate_tracks being exact linear
arithmetic at this level.  Fallible operations return Except over the kinds
of Python exception the module raises.
-/

deriving instance DecidableEq for Except

attribute [local semireducible] Rat.add Rat.mul Rat.sub Rat.inv Rat.ofScientific

/-- Kinds of Python exception raised by code in bigtracks.py.  The spec
taxonomy maps onto these as follows: CorruptFile is the IOError raised when
opening a bad file, AlreadyOpen is the RuntimeError raised on nested context
entry, FrameNotFound is the IndexError raised by the indexed-access lookup,
OutOfRange is the ValueError raised by interpolate_tracks.  typeError is the
TypeError Python raises when a method is called with a wrong number of
arguments. -/
inductive BTError where
  | ioError
  | runtimeError
  | indexError
  | valueError
  | typeError
deriving DecidableEq

/-- One row of the bigtracks table, schema from bigtracks_writer.TrackPoint:
columns frame, particle, x, y, intensity, rg2 (float32 in the file, modelled
as exact rationals here). -/
structure TrackPoint where
  frame : ℚ
  particle : ℚ
  x : ℚ
  y : ℚ
  intensity : ℚ
  rg2 : ℚ
deriving DecidableEq

/-- Truncation toward zero: the conversion Python applies when a float is
formatted with the integer format code, as in the query string built by
BigTracks.get_frame, and by the int() call in BigTracks.maxframe. -/
def pyTrunc (q : ℚ) : ℤ :=
  if 0 ≤ q then ⌊q⌋ else ⌈q⌉

/-- Python fnum % 1.0: the remainder has the sign of the divisor, so it
equals fnum minus its floor and lies in the interval from 0 up to 1. -/
def fracPart (q : ℚ) : ℚ := q - ⌊q⌋

/-- table.readWhere with the frame-equality predicate, as built by
BigTracks.get_frame via the query string.  The integer k is the formatted
literal appearing in the query string. -/
def readWhereFrame (tbl : List TrackPoint) (k : ℤ) : List TrackPoint :=
  tbl.filter (fun r => decide (r.frame = (k : ℚ)))

/-- BigTracks.get_frame: builds the query string with the integer format
code applied to fnum (truncation toward zero) and returns all rows whose
frame column equals that integer. -/
def get_frame (tbl : List TrackPoint) (fnum : ℚ) : List TrackPoint :=
  readWhereFrame tbl (pyTrunc fnum)

/-- BigTracks.get_all: the entire contents of the tracks table. -/
def get_all (tbl : List TrackPoint) : List TrackPoint := tbl

/-- BigTracks.__getitem__: calls get_frame and raises IndexError (the
FrameNotFound of the spec) when the result has zero rows. -/
def bigtracks_getitem (tbl : List TrackPoint) (fnum : ℚ) :
    Except BTError (List TrackPoint) :=
  let ftr := get_frame tbl fnum
  if ftr.length ≠ 0 then .ok ftr else .error .indexError

/-- BigTracks.maxframe: int(self.table[-1].frame).  On an empty table the
row access raises IndexError. -/
def maxframe (tbl : List TrackPoint) : Except BTError ℤ :=
  match tbl.getLast? with
  | some r => .ok (pyTrunc r.frame)
  | none => .error .indexError

/-- numpy.arange with step 1: the list a, a+1, a+2, ... of length
the ceiling of b - a (empty when that is not positive). -/
def arange1 (a b : ℚ) : List ℚ :=
  (List.range (⌈b - a⌉).toNat).map (fun i : ℕ => a + (i : ℚ))

/-- BigTracks.framerange: numpy.arange from the frame of the first physical
row to the frame of the last physical row plus one.  On an empty table the
row accesses raise IndexError. -/
def framerange (tbl : List TrackPoint) : Except BTError (List ℚ) :=
  match tbl with
  | [] => .error .indexError
  | r :: rs => .ok (arange1 r.frame (((r :: rs).getLastD r).frame + 1))

/-- numpy searchsorted with the default left side on a sorted array: the
insertion index, which is the number of elements strictly below v. -/
def searchsorted (xs : List ℚ) (v : ℚ) : ℤ :=
  ((xs.filter (fun x => decide (x < v))).length : ℤ)

/-- numpy indexing with a possibly negative index: a negative index wraps
around once (index -1 is the last element); an index still out of bounds
after wrapping raises IndexError, modelled as none. -/
def npGet (xs : List ℚ) (i : ℤ) : Option ℚ :=
  let j := if i < 0 then i + (xs.length : ℤ) else i
  if 0 ≤ j then xs[j.toNat]? else none

/-- pandas index lookup on a frame indexed by particle: the row of the given
particle, under the documented invariant of at most one row per particle per
frame (violated input is undefined behaviour for interpolation). -/
def findParticle (rows : List TrackPoint) (p : ℚ) : Option TrackPoint :=
  rows.find? (fun r => decide (r.particle = p))

/-- The pandas join at the heart of interpolate_tracks, lines 142 to 148 of
bigtracks.py: starting from a copy of the frame0 rows, the frame column is
set to fnum, the x and y columns become the particle-aligned blends
x0 + (x1 - x0) * frac and y0 + (y1 - y0) * frac with frac the fractional
part of fnum, rows of particles absent from frame1 become missing under the
alignment and are removed by dropna, and the remaining rows keep intensity
and rg2 from frame0 and are reindexed ordinally.  Modelled under the
documented invariant of at most one row per particle per frame. -/
def interpRows (rows0 rows1 : List TrackPoint) (fnum : ℚ) : List TrackPoint :=
  rows0.filterMap (fun r0 =>
    match findParticle rows1 r0.particle with
    | some r1 =>
        some { r0 with
                frame := fnum,
                x := r0.x + (r1.x - r0.x) * fracPart fnum,
                y := r0.y + (r1.y - r0.y) * fracPart fnum }
    | none => none)

/-- interpolate_tracks as written in the source.  When fnum has a zero
fractional part it delegates to get_frame.  Otherwise the first statement of
the else branch is the call bigtracks.framerange(fnum): BigTracks.framerange
takes no argument besides self, so this call raises TypeError before any
frame is looked up, and none of the interpolation code below it is ever
reached for a fractional fnum. -/
def interpolate_tracks (tbl : List TrackPoint) (fnum : ℚ) :
    Except BTError (List TrackPoint) :=
  if fracPart fnum = 0 then
    .ok (get_frame tbl fnum)
  else
    .error .typeError

/-- Variant of interpolate_tracks with the single arity slip repaired: the
stray fnum argument of the framerange call is dropped, and everything else
follows the source, lines 133 to 149 of bigtracks.py.  The try block around
the two frames accesses turns an IndexError into the ValueError that the
spec calls OutOfRange; note that a negative index (insertion index 0) wraps
around instead of raising. -/
def interpolate_tracks_arity_fixed (tbl : List TrackPoint) (fnum : ℚ) :
    Except BTError (List TrackPoint) :=
  if fracPart fnum = 0 then
    .ok (get_frame tbl fnum)
  else
    match framerange tbl with
    | .error e => .error e
    | .ok frames =>
      let fidx := searchsorted frames fnum
      match npGet frames (fidx - 1), npGet frames fidx with
      | some fnum0, some fnum1 =>
          .ok (interpRows (get_frame tbl fnum0) (get_frame tbl fnum1) fnum)
      | _, _ => .error .valueError

/-- File-handle events observable at the storage boundary. -/
inductive FileEvent where
  | opened
  | closed
deriving DecidableEq

/-- The resource state of a BigTracks instance: whether _openfile currently
holds an open handle (the table reference is set exactly when it does). -/
structure BTState where
  isOpen : Bool
deriving DecidableEq

/-- BigTracks.__enter__ on a well-formed file: raises RuntimeError (the
AlreadyOpen of the spec) when the instance is already being used as a
context, before any mutation, so the existing session is untouched;
otherwise opens the file and records the handle.  The CorruptFile path of
__enter__ concerns unparsable files, which are outside the table model
here. -/
def bigtracks_enter (s : BTState) : Option BTError × List FileEvent × BTState :=
  if s.isOpen then
    (some .runtimeError, [], s)
  else
    (none, [.opened], ⟨true⟩)

/-- BigTracks.__exit__: closes the handle and clears it when one is open,
and does nothing otherwise. -/
def bigtracks_exit (s : BTState) : List FileEvent × BTState :=
  if s.isOpen then ([.closed], ⟨false⟩) else ([], s)

/-- BigTracks._open_tracks: the scoping wrapper every read operation runs
under.  When a session is already open it reuses that handle and performs
no file event; otherwise it enters and exits the context around the body,
opening and then closing the file. -/
def open_tracks (s : BTState) : List FileEvent × BTState :=
  if s.isOpen then
    ([], s)
  else
    let (_, evs1, s1) := bigtracks_enter s
    let (evs2, s2) := bigtracks_exit s1
    (evs1 ++ evs2, s2)

/-- The read operations of BigTracks that run under _open_tracks: query,
get_frame, get_all, maxframe and framerange. -/
inductive ReadOp where
  | queryOp (k : ℤ)
  | getFrameOp (fnum : ℚ)
  | getAllOp
  | maxframeOp
  | framerangeOp
deriving DecidableEq

/-- The value a read operation returns: rows for query, get_frame and
get_all, an integer for maxframe, an array of frame numbers for
framerange. -/
inductive ReadResult where
  | rows (rs : List TrackPoint)
  | num (n : ℤ)
  | seqn (xs : List ℚ)
deriving DecidableEq

/-- One read operation of BigTracks run against the table in state s: the
value it computes, the file events it performs, and the state it leaves the
instance in.  Every one of these methods wraps its table access in
_open_tracks. -/
def runReadOp (tbl : List TrackPoint) (op : ReadOp) (s : BTState) :
    Except BTError ReadResult × List FileEvent × BTState :=
  let value : Except BTError ReadResult :=
    match op with
    | .queryOp k => .ok (.rows (readWhereFrame tbl k))
    | .getFrameOp fnum => .ok (.rows (get_frame tbl fnum))
    | .getAllOp => .ok (.rows (get_all tbl))
    | .maxframeOp => (maxframe tbl).map .num
    | .framerangeOp => (framerange tbl).map .seqn
  (value, open_tracks s)

/-- Python list slicing with a positive stride, xs[::k]: the elements whose
index is a multiple of k, in order. -/
def strideSlice (xs : List α) (k : ℕ) : List α :=
  ((List.range xs.length).filter (fun i => decide (i % k = 0))).filterMap
    (fun i => xs[i]?)

/-- compute_quality from bigtracks.py: samples every frame_interval-th
frame of framerange, and for each sampled frame fnum records N, the number
of rows of that frame, and Nconserved, the pandas count of the non-missing
entries of the particle-aligned difference ftr.frame - ftr0.frame, where
ftr0 is the first sampled frame; under the documented invariant of at most
one row per particle per frame that count is the number of rows of the
sampled frame whose particle also occurs in the first sampled frame.  The
result is the list of rows of the returned frame-indexed structure, one
triple (frame, N, Nconserved) per sampled frame.  Split here into the row
computation qualityRow, the loop qualityTable, and compute_quality
itself. -/
def qualityRow (tbl : List TrackPoint) (ftr0 : List TrackPoint) (fnum : ℚ) :
    ℚ × ℕ × ℕ :=
  let ftr := get_frame tbl fnum
  (fnum, ftr.length,
    (ftr.filter (fun r => (findParticle ftr0 r.particle).isSome)).length)

/-- The loop body of compute_quality over the sampled frames: ftr0 is the
first sampled frame (None only when no frame is sampled, in which case the
loop never runs and the result is empty). -/
def qualityTable (tbl : List TrackPoint) (frames : List ℚ) :
    List (ℚ × ℕ × ℕ) :=
  match frames with
  | [] => []
  | f0 :: _ => frames.map (qualityRow tbl (get_frame tbl f0))

def compute_quality (tbl : List TrackPoint) (frame_interval : ℕ) :
    Except BTError (List (ℚ × ℕ × ℕ)) :=
  match framerange tbl with
  | .error e => .error e
  | .ok allFrames => .ok (qualityTable tbl (strideSlice allFrames frame_interval))

/-- Spec-side notion: the set of particle identities present in the frame
numbered fnum of the table. -/
def particlesOf (tbl : List TrackPoint) (fnum : ℚ) : Finset ℚ :=
  ((get_frame tbl fnum).map (fun r => r.particle)).toFinset

/-- Spec-side invariant: within any one frame, each particle identity
occurs on at most one row (§3 of the spec: frame snapshots are keyed
uniquely by particle). -/
abbrev uniqueParticlesPerFrame (tbl : List TrackPoint) : Prop :=
  tbl.Pairwise (fun r s => r.frame = s.frame → r.particle ≠ s.particle)

/-- A sample table: one particle, numbered 1, observed at frames 0 and 1
with x moving from 1 to 2 and distinct intensity and rg2 values in the two
frames. -/
def tbl1 : List TrackPoint :=
  [⟨0, 1, 1, 0, 5, 7⟩, ⟨1, 1, 2, 0, 6, 8⟩]

/-- A sample table for drop handling: particles 1 and 2 in frame 0, but
only particle 1 in frame 1. -/
def tbl4 : List TrackPoint :=
  [⟨0, 1, 0, 0, 1, 1⟩, ⟨0, 2, 10, 10, 1, 1⟩, ⟨1, 1, 1, 1, 2, 2⟩]

/-- A sample table with rows at frames 5 and 6 only. -/
def tbl10 : List TrackPoint :=
  [⟨5, 3, 1, 2, 0, 0⟩, ⟨6, 4, 9, 9, 0, 0⟩]

/-- The diagnostics example of the spec: particles 1, 2 and 3 in frame 0,
and only particles 1 and 2 (same identities) in frame 10. -/
def tblQ : List TrackPoint :=
  [⟨0, 1, 0, 0, 1, 1⟩, ⟨0, 2, 1, 1, 1, 1⟩, ⟨0, 3, 2, 2, 1, 1⟩,
   ⟨10, 1, 3, 3, 1, 1⟩, ⟨10, 2, 4, 4, 1, 1⟩]

/-! Helper lemmas shared by the claim theorems. -/

theorem pyTrunc_intCast (k : ℤ) : pyTrunc (k : ℚ) = k := by
  unfold pyTrunc
  split <;> simp

theorem head_rel_of_pairwise {α : Type} {R : α → α → Prop}
    (hrefl : ∀ a, R a a) {l : List α} (hp : l.Pairwise R) {a : α}
    (h : l.head? = some a) : ∀ q ∈ l, R a q := by
  cases l with
  | nil => simp at h
  | cons b t =>
    obtain rfl : b = a := by simpa using h
    rcases List.pairwise_cons.mp hp with ⟨hb, _⟩
    intro q hq
    rcases List.mem_cons.mp hq with rfl | hq'
    · exact hrefl q
    · exact hb q hq'

theorem le_getLast_of_pairwise {l : List ℚ} (hp : l.Pairwise (· ≤ ·)) {b : ℚ}
    (h : l.getLast? = some b) : ∀ q ∈ l, q ≤ b := by
  intro q hq
  have hrev : l.reverse.Pairwise (fun x y => y ≤ x) :=
    List.pairwise_reverse.mpr hp
  have hhead : l.reverse.head? = some b := by
    rw [List.head?_reverse]; exact h
  exact head_rel_of_pairwise (R := fun x y => y ≤ x) (fun a => le_refl a)
    hrev hhead q (List.mem_reverse.mpr hq)

theorem arange1_intCast (m n : ℤ) :
    arange1 (m : ℚ) ((n : ℚ) + 1) =
      (List.range (n - m + 1).toNat).map (fun i : ℕ => (m : ℚ) + (i : ℚ)) := by
  have h2 : ((n : ℚ) + 1 - (m : ℚ)) = ((n - m + 1 : ℤ) : ℚ) := by
    push_cast
    ring
  have h : (⌈(n : ℚ) + 1 - (m : ℚ)⌉) = n - m + 1 := by
    rw [h2, Int.ceil_intCast]
  unfold arange1
  rw [h]

theorem nodup_frame_particles (tbl : List TrackPoint)
    (hu : uniqueParticlesPerFrame tbl) (f : ℚ) :
    ((get_frame tbl f).map (fun r => r.particle)).Nodup := by
  unfold List.Nodup
  rw [List.pairwise_map]
  have hp : (get_frame tbl f).Pairwise
      (fun r s => r.frame = s.frame → r.particle ≠ s.particle) :=
    List.Pairwise.filter _ hu
  refine hp.imp_of_mem ?_
  intro a b ha hb hab
  have ha' : a.frame = ((pyTrunc f : ℤ) : ℚ) := by
    have h := List.mem_filter.mp ha
    simpa using h.2
  have hb' : b.frame = ((pyTrunc f : ℤ) : ℚ) := by
    have h := List.mem_filter.mp hb
    simpa using h.2
  exact hab (ha'.trans hb'.symm)

theorem frame_count_eq_card (tbl : List TrackPoint)
    (hu : uniqueParticlesPerFrame tbl) (f : ℚ) :
    (get_frame tbl f).length = (particlesOf tbl f).card := by
  have hnd := nodup_frame_particles tbl hu f
  rw [particlesOf, List.toFinset_card_of_nodup hnd, List.length_map]

theorem length_filter_comp (f : TrackPoint → ℚ) (p : ℚ → Bool)
    (l : List TrackPoint) :
    (l.filter (fun r => p (f r))).length = ((l.map f).filter p).length := by
  induction l with
  | nil => rfl
  | cons a t ih =>
    cases hpa : p (f a) <;>
      simp [List.filter_cons, hpa, ih]

theorem conserved_count (tbl : List TrackPoint)
    (hu : uniqueParticlesPerFrame tbl) (f f0 : ℚ) :
    ((get_frame tbl f).filter
        (fun r => (findParticle (get_frame tbl f0) r.particle).isSome)).length
      = ((particlesOf tbl f) ∩ (particlesOf tbl f0)).card := by
  have hnd := nodup_frame_particles tbl hu f
  have hcong : (get_frame tbl f).filter
        (fun r => (findParticle (get_frame tbl f0) r.particle).isSome)
      = (get_frame tbl f).filter
        (fun r => decide (r.particle ∈
          (get_frame tbl f0).map (fun s => s.particle))) := by
    apply List.filter_congr
    intro r _
    rw [Bool.eq_iff_iff]
    simp only [findParticle, List.find?_isSome, List.mem_map,
      decide_eq_true_eq]
  rw [hcong, length_filter_comp (fun r => r.particle)
      (fun x => decide (x ∈ (get_frame tbl f0).map (fun s => s.particle)))]
  have hnd2 : (((get_frame tbl f).map (fun r => r.particle)).filter
      (fun x => decide (x ∈
        (get_frame tbl f0).map (fun s => s.particle)))).Nodup :=
    hnd.filter _
  rw [← List.toFinset_card_of_nodup hnd2, List.toFinset_filter]
  congr 1
  rw [particlesOf, particlesOf]
  ext x
  simp [Finset.mem_filter, List.mem_toFinset]

/-! Claim theorems. -/

/-- Claim C1.  The claim states that interpolation at a fractional frame
number between two bracketing observed frames produces one row per shared
particle with linearly blended x and y, frame set to fnum, and the other
columns carried from the earlier bracketing frame.  On the code as written
this never happens: for every fractional fnum the call
bigtracks.framerange(fnum) raises TypeError, because framerange takes no
argument, so interpolate_tracks errors out (first conjunct).  With only
that arity slip repaired, the interpolation does produce exactly the
claimed row: on tbl1 at fnum one half, particle 1 moves from x equal 1 to
x equal 2, and the output row carries frame one half, x three halves, y
zero, and intensity 5 and rg2 7 from the earlier frame (second
conjunct). -/
theorem interp_fractional_raises_type_error :
    interpolate_tracks tbl1 (1/2) = .error .typeError
    ∧ interpolate_tracks_arity_fixed tbl1 (1/2) =
        .ok [⟨1/2, 1, 3/2, 0, 5, 7⟩] :=
  ⟨by decide, by decide⟩

/-- Claim C2.  The claim states that interpolate raises OutOfRange for
every fractional fnum outside the available frame range and never returns
a result there.  The code as written raises TypeError instead, for every
fractional fnum (first conjunct).  With the arity slip repaired, a
fractional fnum below the first frame still does not raise: the insertion
index is 0, so frames with index minus one wraps around to the last frame
and an interpolated row built from the last and first frames is returned
(second conjunct, fnum minus one half on a table with frames 0 and 1);
only a fractional fnum above the last frame raises the ValueError that the
spec calls OutOfRange (third conjunct). -/
theorem interp_out_of_range_not_raised_below :
    interpolate_tracks tbl1 (-1/2) = .error .typeError
    ∧ interpolate_tracks_arity_fixed tbl1 (-1/2) =
        .ok [⟨-1/2, 1, 3/2, 0, 6, 8⟩]
    ∧ interpolate_tracks_arity_fixed tbl1 (5/2) = .error .valueError :=
  ⟨by decide, by decide, by decide⟩

/-- Claim C3.  For every fnum with zero fractional part, that is every
integer-valued fnum, interpolate_tracks delegates to get_frame and returns
exactly its result. -/
theorem interpolate_integer_fast_path (tbl : List TrackPoint) (fnum : ℚ)
    (k : ℤ) (h : fnum = (k : ℚ)) :
    interpolate_tracks tbl fnum = .ok (get_frame tbl fnum) := by
  subst h
  simp [interpolate_tracks, fracPart]

/-- Witness for C3 at the concrete table tbl1 and fnum equal 1. -/
theorem interpolate_integer_fast_path_witness :
    interpolate_tracks tbl1 1 = .ok (get_frame tbl1 1) :=
  interpolate_integer_fast_path tbl1 1 1 (by decide)

/-- Claim C4.  The claim states that a particle present in only one of the
two bracketing frames never appears in the interpolated result.  On the
code as written there is no interpolated result to appear in: every
fractional fnum raises TypeError through the framerange arity slip (first
conjunct), so the dropping behaviour is unreachable.  With the slip
repaired the dropna step does exclude one-sided particles: on tbl4, where
particle 2 exists only in frame 0, the result at fnum one half contains
only particle 1 (second conjunct). -/
theorem interp_one_sided_drop_unreachable :
    interpolate_tracks tbl4 (1/2) = .error .typeError
    ∧ interpolate_tracks_arity_fixed tbl4 (1/2) =
        .ok [⟨1/2, 1, 1/2, 1/2, 1, 1⟩] :=
  ⟨by decide, by decide⟩

/-- Claim C5.  For a non-empty table physically sorted ascending by frame
whose frame values are integer valued (the data model invariant), the frame
of the first row is the minimum and the frame of the last row the maximum
over all rows, framerange is the arithmetic sequence starting at the first
frame with step 1 and the right length, it contains every integer frame
number between the two extremes, and its first and last elements are
exactly the smallest and largest frame values. -/
theorem framerange_full_sequence (tbl : List TrackPoint) (r0 rn : TrackPoint)
    (h0 : tbl.head? = some r0) (hn : tbl.getLast? = some rn)
    (hs : List.Chain' (fun a b => a.frame ≤ b.frame) tbl)
    (hden : ∀ r ∈ tbl, (r.frame).den = 1) :
    (∀ r ∈ tbl, r0.frame ≤ r.frame ∧ r.frame ≤ rn.frame)
    ∧ framerange tbl =
        .ok ((List.range (rn.frame.num - r0.frame.num + 1).toNat).map
          (fun i : ℕ => r0.frame + (i : ℚ)))
    ∧ (∀ fr, framerange tbl = .ok fr →
        (∀ k : ℤ, r0.frame ≤ (k : ℚ) → (k : ℚ) ≤ rn.frame → (k : ℚ) ∈ fr)
        ∧ fr.head? = some r0.frame ∧ fr.getLast? = some rn.frame) := by
  obtain ⟨t, rfl⟩ : ∃ t, tbl = r0 :: t := by
    cases tbl with
    | nil => simp at h0
    | cons a t =>
      have ha : a = r0 := by simpa using h0
      exact ⟨t, by rw [ha]⟩
  have hchain : ((r0 :: t).map (fun r => r.frame)).Chain' (· ≤ ·) := by
    rw [List.chain'_map]
    exact hs
  have hpair : ((r0 :: t).map (fun r => r.frame)).Pairwise (· ≤ ·) :=
    List.chain'_iff_pairwise.mp hchain
  have hhead : ((r0 :: t).map (fun r => r.frame)).head? = some r0.frame := by
    simp
  have hlast : ((r0 :: t).map (fun r => r.frame)).getLast? = some rn.frame := by
    rw [List.getLast?_map, hn]
    rfl
  have hminmax : ∀ r ∈ r0 :: t, r0.frame ≤ r.frame ∧ r.frame ≤ rn.frame := by
    intro r hr
    have hmem : r.frame ∈ (r0 :: t).map (fun r => r.frame) :=
      List.mem_map.mpr ⟨r, hr, rfl⟩
    exact ⟨head_rel_of_pairwise (fun a => le_refl a) hpair hhead _ hmem,
      le_getLast_of_pairwise hpair hlast _ hmem⟩
  have hrnmem : rn ∈ r0 :: t := List.mem_of_getLast?_eq_some hn
  have hm : ((r0.frame.num : ℤ) : ℚ) = r0.frame :=
    (Rat.den_eq_one_iff _).mp (hden r0 (List.mem_cons_self r0 t))
  have hn' : ((rn.frame.num : ℤ) : ℚ) = rn.frame :=
    (Rat.den_eq_one_iff _).mp (hden rn hrnmem)
  have hmn : r0.frame.num ≤ rn.frame.num := by
    have h1 := (hminmax rn hrnmem).1
    rw [← hm, ← hn'] at h1
    exact_mod_cast h1
  have hlastD : ((r0 :: t).getLastD r0) = rn := by
    rw [List.getLastD_eq_getLast?, hn]
    rfl
  have hfr : framerange (r0 :: t) =
      .ok ((List.range (rn.frame.num - r0.frame.num + 1).toNat).map
        (fun i : ℕ => r0.frame + (i : ℚ))) := by
    show Except.ok (arange1 r0.frame (((r0 :: t).getLastD r0).frame + 1)) = _
    rw [hlastD]
    congr 1
    conv_lhs => rw [← hm, ← hn']
    rw [arange1_intCast]
    simp only [hm]
  refine ⟨hminmax, hfr, ?_⟩
  intro fr hfreq
  rw [hfr] at hfreq
  injection hfreq with hfr2
  subst hfr2
  have hNpos : (rn.frame.num - r0.frame.num + 1).toNat =
      (rn.frame.num - r0.frame.num).toNat + 1 := by omega
  refine ⟨?_, ?_, ?_⟩
  · intro k hk0 hkn
    have hk0' : r0.frame.num ≤ k := by
      rw [← hm] at hk0
      exact_mod_cast hk0
    have hkn' : k ≤ rn.frame.num := by
      rw [← hn'] at hkn
      exact_mod_cast hkn
    refine List.mem_map.mpr ⟨(k - r0.frame.num).toNat, ?_, ?_⟩
    · exact List.mem_range.mpr (by omega)
    · have hz : (((k - r0.frame.num).toNat : ℕ) : ℤ) = k - r0.frame.num :=
        Int.toNat_of_nonneg (by omega)
      have hq : (((k - r0.frame.num).toNat : ℕ) : ℚ) =
          (k : ℚ) - ((r0.frame.num : ℤ) : ℚ) := by
        rw [← Int.cast_natCast, hz]
        push_cast
        ring
      rw [hq, hm]
      ring
  · rw [hNpos, List.range_succ_eq_map]
    simp
  · rw [hNpos, List.range_succ, List.map_append]
    simp only [List.map_cons, List.map_nil, List.getLast?_concat]
    have hz2 : (((rn.frame.num - r0.frame.num).toNat : ℕ) : ℤ) =
        rn.frame.num - r0.frame.num :=
      Int.toNat_of_nonneg (by omega)
    have hcast : (((rn.frame.num - r0.frame.num).toNat : ℕ) : ℚ) =
        rn.frame - r0.frame := by
      rw [← Int.cast_natCast, hz2]
      push_cast
      rw [hm, hn']
    rw [hcast, Option.some_inj]
    ring

/-- Witness for C5 on the concrete table tbl1, whose frames are 0 and 1. -/
theorem framerange_full_sequence_witness :
    framerange tbl1 = .ok [0, 1] := by
  have h := (framerange_full_sequence tbl1 ⟨0, 1, 1, 0, 5, 7⟩ ⟨1, 1, 2, 0, 6, 8⟩
    rfl rfl (by norm_num [tbl1, List.chain'_cons]) (by decide)).2.1
  rw [h]
  decide

/-- Claim C6.  Indexed access raises IndexError (the FrameNotFound of the
spec) exactly when get_frame returns zero rows, and otherwise returns the
very rows get_frame returns; get_frame itself is total, never raising
FrameNotFound, and yields the empty result when no row carries the
requested frame number. -/
theorem getitem_frame_not_found (tbl : List TrackPoint) (fnum : ℚ) :
    (bigtracks_getitem tbl fnum = .error .indexError ↔
      get_frame tbl fnum = [])
    ∧ (get_frame tbl fnum ≠ [] →
        bigtracks_getitem tbl fnum = .ok (get_frame tbl fnum))
    ∧ ((∀ r ∈ tbl, r.frame ≠ ((pyTrunc fnum : ℤ) : ℚ)) →
        get_frame tbl fnum = []) := by
  refine ⟨?_, ?_, ?_⟩
  · by_cases h : get_frame tbl fnum = [] <;>
      simp [bigtracks_getitem, h, List.length_eq_zero]
  · intro h
    simp [bigtracks_getitem, List.length_eq_zero, h]
  · intro h
    simp only [get_frame, readWhereFrame, List.filter_eq_nil_iff]
    intro r hr
    simpa using h r hr

/-- Witness for C6: on tbl1 frame 5 is absent, so indexed access raises,
while frame 1 is present, so indexed access returns the get_frame rows. -/
theorem getitem_frame_not_found_witness :
    bigtracks_getitem tbl1 5 = .error .indexError
    ∧ bigtracks_getitem tbl1 1 = .ok (get_frame tbl1 1) :=
  ⟨(getitem_frame_not_found tbl1 5).1.mpr (by decide),
   (getitem_frame_not_found tbl1 1).2.1 (by decide)⟩

/-- Claim C7.  Entering the context on an instance already being used as a
context raises RuntimeError (the AlreadyOpen of the spec) and leaves the
state exactly as it was, open session intact; after exiting, entering
again succeeds and opens a session. -/
theorem session_reentry (s : BTState) (h : s.isOpen = true) :
    bigtracks_enter s = (some .runtimeError, [], s)
    ∧ (bigtracks_enter (bigtracks_exit s).2).1 = none
    ∧ (bigtracks_enter (bigtracks_exit s).2).2.2.isOpen = true := by
  simp [bigtracks_enter, bigtracks_exit, h]

/-- Witness for C7 at the concrete open state. -/
theorem session_reentry_witness :
    bigtracks_enter ⟨true⟩ = (some .runtimeError, [], ⟨true⟩)
    ∧ (bigtracks_enter (bigtracks_exit ⟨true⟩).2).1 = none
    ∧ (bigtracks_enter (bigtracks_exit ⟨true⟩).2).2.2.isOpen = true :=
  session_reentry ⟨true⟩ rfl

/-- Claim C8.  Every read operation of BigTracks, run while no session is
open, opens the file and closes it again before returning, ending in the
closed state with no handle left behind; run inside an open session it
performs no file event at all and leaves the session state untouched. -/
theorem read_ops_scoping (tbl : List TrackPoint) (op : ReadOp) (s : BTState) :
    (s.isOpen = false →
      (runReadOp tbl op s).2 = ([.opened, .closed], ⟨false⟩))
    ∧ (s.isOpen = true → (runReadOp tbl op s).2 = ([], s)) := by
  obtain ⟨b⟩ := s
  cases b <;>
    simp [runReadOp, open_tracks, bigtracks_enter, bigtracks_exit]

/-- Witness for C8 at two concrete operations and states. -/
theorem read_ops_scoping_witness :
    (runReadOp tbl1 .getAllOp ⟨false⟩).2 = ([.opened, .closed], ⟨false⟩)
    ∧ (runReadOp tbl1 .maxframeOp ⟨true⟩).2 = ([], ⟨true⟩) :=
  ⟨(read_ops_scoping tbl1 .getAllOp ⟨false⟩).1 rfl,
   (read_ops_scoping tbl1 .maxframeOp ⟨true⟩).2 rfl⟩

/-- Claim C9.  On a non-empty table with a positive sampling stride and at
most one row per particle per frame, compute_quality succeeds and returns
one row per sampled frame of the strided frame sequence, recording for
each sampled frame its frame number, N equal to the number of particles
present in it, and Nconserved equal to the number of particles present in
both it and the first sampled frame; the first returned row always has
Nconserved equal to N, and on the concrete table tblQ with three particles
in frame 0 and two of them in frame 10, sampled at interval 10, the result
is N 3 and Nconserved 3 at frame 0 and N 2 and Nconserved 2 at frame 10.
The embedding is pure, so the operation cannot mutate the table. -/
theorem compute_quality_counts (tbl : List TrackPoint) (k : ℕ)
    (hne : tbl ≠ []) (hk : 0 < k) (hu : uniqueParticlesPerFrame tbl) :
    (∃ allF, framerange tbl = .ok allF)
    ∧ (∀ allF, framerange tbl = .ok allF →
        compute_quality tbl k =
          .ok ((strideSlice allF k).map (fun f =>
            (f, (particlesOf tbl f).card,
              ((particlesOf tbl f) ∩
                (particlesOf tbl ((strideSlice allF k).headD 0))).card))))
    ∧ (∀ res e, compute_quality tbl k = .ok res → res.head? = some e →
        e.2.2 = e.2.1)
    ∧ compute_quality tblQ 10 = .ok [(0, 3, 3), (10, 2, 2)] := by
  have hex : ∃ allF, framerange tbl = .ok allF := by
    cases tbl with
    | nil => exact absurd rfl hne
    | cons r t => exact ⟨_, rfl⟩
  have hmain : ∀ allF, framerange tbl = .ok allF →
      compute_quality tbl k =
        .ok ((strideSlice allF k).map (fun f =>
          (f, (particlesOf tbl f).card,
            ((particlesOf tbl f) ∩
              (particlesOf tbl ((strideSlice allF k).headD 0))).card))) := by
    intro allF hF
    have hcq : compute_quality tbl k =
        .ok (qualityTable tbl (strideSlice allF k)) := by
      unfold compute_quality
      rw [hF]
    rw [hcq]
    congr 1
    cases hfr : strideSlice allF k with
    | nil => rfl
    | cons f0 rest =>
      show (f0 :: rest).map (qualityRow tbl (get_frame tbl f0)) = _
      simp only [List.headD_cons]
      apply List.map_congr_left
      intro f hf
      unfold qualityRow
      refine Prod.ext rfl (Prod.ext ?_ ?_)
      · exact frame_count_eq_card tbl hu f
      · exact conserved_count tbl hu f f0
  refine ⟨hex, hmain, ?_, by decide⟩
  intro res e hres hhead
  obtain ⟨allF, hF⟩ := hex
  rw [hmain allF hF] at hres
  injection hres with hres2
  subst hres2
  cases hfr : strideSlice allF k with
  | nil =>
    rw [hfr] at hhead
    simp at hhead
  | cons f0 rest =>
    rw [hfr] at hhead
    simp only [List.map_cons, List.head?_cons, Option.some_inj] at hhead
    subst hhead
    simp [List.headD_cons, Finset.inter_self]

/-- Witness for C9: the concrete diagnostics example evaluated through the
theorem at table tblQ and stride 10. -/
theorem compute_quality_counts_witness :
    compute_quality tblQ 10 = .ok [(0, 3, 3), (10, 2, 2)] :=
  (compute_quality_counts tblQ 10 (by decide) (by decide) (by decide)).2.2.2

/-- Claim C10.  For every frame-number argument, get_frame matches rows
against the truncation of the argument toward zero: the lookup at fnum
equals the lookup at the integer pyTrunc fnum, whose absolute value is at
most that of fnum, within one of it, and whose sign agrees with fnum, and
concretely the lookup at 57 tenths on tbl10 returns the frame 5 row rather
than an empty result. -/
theorem get_frame_truncates (tbl : List TrackPoint) (fnum : ℚ) :
    get_frame tbl fnum = get_frame tbl ((pyTrunc fnum : ℤ) : ℚ)
    ∧ |((pyTrunc fnum : ℤ) : ℚ)| ≤ |fnum|
    ∧ |fnum| < |((pyTrunc fnum : ℤ) : ℚ)| + 1
    ∧ 0 ≤ ((pyTrunc fnum : ℤ) : ℚ) * fnum
    ∧ get_frame tbl10 (57/10) = [⟨5, 3, 1, 2, 0, 0⟩]
    ∧ get_frame tbl10 (57/10) ≠ [] := by
  refine ⟨by simp [get_frame, pyTrunc_intCast], ?_, ?_, ?_, by decide, by decide⟩
  · rcases le_or_lt 0 fnum with h | h
    · rw [pyTrunc, if_pos h, abs_of_nonneg h,
        abs_of_nonneg (by exact_mod_cast Int.floor_nonneg.mpr h :
          (0:ℚ) ≤ (⌊fnum⌋ : ℚ))]
      exact Int.floor_le fnum
    · rw [pyTrunc, if_neg (not_le.mpr h), abs_of_neg h]
      have hc : ((⌈fnum⌉ : ℤ) : ℚ) ≤ 0 := by
        exact_mod_cast Int.ceil_le.mpr (by exact_mod_cast h.le : fnum ≤ ((0:ℤ):ℚ))
      rw [abs_of_nonpos hc]
      simpa using Int.le_ceil fnum
  · rcases le_or_lt 0 fnum with h | h
    · rw [pyTrunc, if_pos h, abs_of_nonneg h,
        abs_of_nonneg (by exact_mod_cast Int.floor_nonneg.mpr h :
          (0:ℚ) ≤ (⌊fnum⌋ : ℚ))]
      exact Int.lt_floor_add_one fnum
    · rw [pyTrunc, if_neg (not_le.mpr h), abs_of_neg h]
      have hc : ((⌈fnum⌉ : ℤ) : ℚ) ≤ 0 := by
        exact_mod_cast Int.ceil_le.mpr (by exact_mod_cast h.le : fnum ≤ ((0:ℤ):ℚ))
      rw [abs_of_nonpos hc]
      have hlt := Int.ceil_lt_add_one fnum
      linarith
  · rcases le_or_lt 0 fnum with h | h
    · rw [pyTrunc, if_pos h]
      exact mul_nonneg (by exact_mod_cast Int.floor_nonneg.mpr h) h
    · rw [pyTrunc, if_neg (not_le.mpr h)]
      have hc : ((⌈fnum⌉ : ℤ) : ℚ) ≤ 0 := by
        exact_mod_cast Int.ceil_le.mpr (by exact_mod_cast h.le : fnum ≤ ((0:ℤ):ℚ))
      have hm := mul_nonneg (neg_nonneg.mpr hc) (neg_nonneg.mpr h.le)
      rwa [neg_mul_neg] at hm
